import Mathlib

/-!
Shallow embedding of the QuizTime backend's question-delivery, stats and
leaderboard logic (from `src/index.js` and the legacy server variants),
together with theorems settling the specification's claims against it.

Conventions used throughout:
* Client-supplied JSON numbers that may be absent are modelled as `Option`;
  the JavaScript idiom `x || d` on numbers (where `0` and `undefined` are
  falsy) is `jsOrNat` / `jsOrInt`, and on strings (where `""` is falsy)
  `jsOrStr`.
* `Math.round((c / a) * 100)` on nonnegative values is `jsRound100`
  (round half up, i.e. the floor of `100 * c / a + 1 / 2`).
* Sources of randomness (the shuffle in `getRandomQuestions`, the
  resampling picks of the padding loop) are passed in explicitly, as the
  specification's design notes suggest for testability.
* `Array.prototype.sort` (stable since ES2019) is modelled by a stable
  insertion sort; `findIndex` (first index or `-1`) by `jsFindIndex`.
-/

open scoped List

/-- JavaScript `x || d` for an optional number: `undefined` and `0` are
falsy and fall back to the default `d`. -/
def jsOrNat (o : Option Nat) (d : Nat) : Nat :=
  match o with
  | none => d
  | some v => if v = 0 then d else v

/-- JavaScript `x || d` for an optional (possibly negative) number. -/
def jsOrInt (o : Option Int) (d : Int) : Int :=
  match o with
  | none => d
  | some v => if v = 0 then d else v

/-- JavaScript `x || d` for an optional string: `undefined` and `""` are
falsy and fall back to the default `d`. -/
def jsOrStr (o : Option String) (d : String) : String :=
  match o with
  | none => d
  | some v => if v = "" then d else v

/-- `Math.round((c / a) * 100)` for natural `c` and positive natural `a`:
round half up, computed as `floor ((200 * c + a) / (2 * a))`. -/
def jsRound100 (c a : Nat) : Nat := (200 * c + a) / (2 * a)

/-- A catalog question (`questionSchema` of `src/db/models.js` and the
entries of the JSON question files): string id, text, ordered options,
the answer text and a difficulty level.  (The `category` field is carried
by the store but never read by the logic under study, so it is omitted.) -/
structure Question where
  id : String
  question : String
  options : List String
  answer : String
  level : String
deriving DecidableEq

/-- A per-user stats record as written by `POST /api/game/complete` and
`POST /api/stats` in `src/index.js` (`Stats` documents with the
games/prize/accuracy fields). -/
structure Stats where
  id : Nat
  userId : String
  username : String
  gamesPlayed : Nat
  gamesCompleted : Nat
  totalPrizeMoney : Int
  questionsAnswered : Nat
  accuracy : Nat
  averageCompletionTime : String
deriving DecidableEq

/-- The request body of `POST /api/game/complete` (src/index.js lines
748-755).  Fields the client may omit are `Option`; `gameCompleted` is
used only for truthiness, hence `Bool`. -/
structure CompleteReq where
  questionsAnswered : Option Nat
  correctAnswers : Nat
  totalQuestions : Option Nat
  finalPrize : Option Int
  completionTime : Option String
  gameCompleted : Bool
deriving DecidableEq

/-- The stats branch of `POST /api/game/complete` (src/index.js lines
760-785).  `prev` is the result of `Stats.findOne({ username })`;
`newStatId` stands for the id the handler derives from the stats record
with the largest id (`lastStat ? lastStat.id + 1 : 1`), which is outside
the per-user record and therefore passed in.

Update branch (lines 761-768):
`gamesPlayed += 1`; `gamesCompleted += 1` if `gameCompleted`;
`totalPrizeMoney += finalPrize || 0`;
`questionsAnswered += questionsAnswered || 0`;
`accuracy = stats.questionsAnswered > 0 ?
  Math.round((correctAnswers / stats.questionsAnswered) * 100) : 0`
— note that the numerator is the request's `correctAnswers` while the
denominator is the cumulative `stats.questionsAnswered`.

Create branch (lines 769-784): fields initialised from the request. -/
def statsAfterComplete (prev : Option Stats) (userId username : String)
    (newStatId : Nat) (r : CompleteReq) : Stats :=
  match prev with
  | some s =>
    let qa := s.questionsAnswered + jsOrNat r.questionsAnswered 0
    { s with
      gamesPlayed := s.gamesPlayed + 1
      gamesCompleted := s.gamesCompleted + (if r.gameCompleted then 1 else 0)
      totalPrizeMoney := s.totalPrizeMoney + jsOrInt r.finalPrize 0
      questionsAnswered := qa
      accuracy := if 0 < qa then jsRound100 r.correctAnswers qa else 0 }
  | none =>
    { id := newStatId
      userId := userId
      username := username
      gamesPlayed := 1
      gamesCompleted := if r.gameCompleted then 1 else 0
      totalPrizeMoney := jsOrInt r.finalPrize 0
      questionsAnswered := jsOrNat r.questionsAnswered 0
      accuracy :=
        match r.questionsAnswered with
        | some v => if 0 < v then jsRound100 r.correctAnswers v else 0
        | none => 0
      averageCompletionTime := jsOrStr r.completionTime "0:00" }

/-- First completion of the claim's scenario for user "bob":
10 questions answered, 8 correct. -/
def bobReq1 : CompleteReq :=
  { questionsAnswered := some 10
    correctAnswers := 8
    totalQuestions := some 16
    finalPrize := some 1000
    completionTime := some "2:00"
    gameCompleted := true }

/-- Second completion of the claim's scenario: 10 answered, 5 correct. -/
def bobReq2 : CompleteReq :=
  { questionsAnswered := some 10
    correctAnswers := 5
    totalQuestions := some 16
    finalPrize := some 2000
    completionTime := some "3:00"
    gameCompleted := true }

/-- Bob's stats record after the first completion (create branch). -/
def bobStats1 : Stats := statsAfterComplete none "u1" "bob" 1 bobReq1

/-- Bob's stats record after the second completion (update branch). -/
def bobStats2 : Stats := statsAfterComplete (some bobStats1) "u1" "bob" 1 bobReq2

/-- C1.  The cumulative counter additions of the claim do hold
(`gamesPlayed`, `gamesCompleted`, `totalPrize`, `questionsAnswered`,
with cumulative answered count 20 on the claim's scenario), and the
specification's accuracy formula on that scenario gives
`round(100 * 13 / 20) = 65`; but the code's update branch divides the
*latest* request's `correctAnswers` by the *cumulative* answered count
(the record stores no cumulative correct count at all), producing
`round(100 * 5 / 20) = 25` instead of the claimed 65. -/
theorem c1_stats_accuracy_mixes_delta_and_cumulative :
    bobStats1.accuracy = 80 ∧
    bobStats2.gamesPlayed = 2 ∧
    bobStats2.gamesCompleted = 2 ∧
    bobStats2.totalPrizeMoney = 3000 ∧
    bobStats2.questionsAnswered = 20 ∧
    jsRound100 (8 + 5) 20 = 65 ∧
    bobStats2.accuracy = 25 ∧
    bobStats2.accuracy ≠ 65 := by
  decide

/-- A leaderboard entry of the `prizeWon`-keyed variant (`POST
/api/game/complete` and `POST /api/complete-game` in `src/index.js`).
`completionDate` (`new Date()`) is modelled as a numeric timestamp. -/
structure LBEntry where
  id : Nat
  userId : String
  playerName : String
  prizeWon : Int
  questionsAnswered : Nat
  totalQuestions : Nat
  completionDate : Nat
  completionTime : String
deriving DecidableEq

/-- The ordering imposed by the comparator
`(a, b) => b.prizeWon - a.prizeWon`: `a` may come before `b` iff
`b.prizeWon ≤ a.prizeWon`. -/
def lbGe (a b : LBEntry) : Prop := b.prizeWon ≤ a.prizeWon

instance : DecidableRel lbGe :=
  fun a b => inferInstanceAs (Decidable (b.prizeWon ≤ a.prizeWon))

instance : IsTotal LBEntry lbGe := ⟨fun a b => le_total b.prizeWon a.prizeWon⟩

instance : IsTrans LBEntry lbGe := ⟨fun _ _ _ h1 h2 => le_trans h2 h1⟩

/-- `leaderboard.sort((a, b) => b.prizeWon - a.prizeWon)`: a stable sort
(ES2019) in descending `prizeWon` order, modelled by insertion sort. -/
def lbSort (l : List LBEntry) : List LBEntry := l.insertionSort lbGe

/-- The sort-then-truncate tail shared by both leaderboard writers
(src/index.js lines 811-816 and 889-894): sort descending, then keep only
the first 100 entries when more than 100 are present. -/
def sortTrunc (l : List LBEntry) : List LBEntry :=
  let s := lbSort l
  if 100 < s.length then s.take 100 else s

/-- Fresh entry id (src/index.js lines 794-797): `Math.max` over the
existing ids when the list is nonempty, otherwise 0, plus one. -/
def lbNewId (lb : List LBEntry) : Nat :=
  (if 0 < lb.length then lb.foldl (fun m e => max m e.id) 0 else 0) + 1

/-- JavaScript `Array.prototype.findIndex`: index of the first element
satisfying the predicate, `-1` when there is none. -/
def jsFindIndex {α : Type} (p : α → Bool) : List α → Int
  | [] => -1
  | x :: xs =>
    if p x then 0
    else if jsFindIndex p xs = -1 then -1 else jsFindIndex p xs + 1

/-- The entry pushed by the leaderboard branch of `POST
/api/game/complete` (src/index.js lines 799-808). -/
def mkCompleteEntry (lb : List LBEntry) (userId username : String)
    (r : CompleteReq) (now : Nat) : LBEntry :=
  { id := lbNewId lb
    userId := userId
    playerName := username
    prizeWon := (r.finalPrize).getD 0
    questionsAnswered := jsOrNat r.questionsAnswered 0
    totalQuestions := jsOrNat r.totalQuestions 16
    completionDate := now
    completionTime := jsOrStr r.completionTime "0:00" }

/-- The leaderboard branch of `POST /api/game/complete` (src/index.js
lines 788-820): push a fresh entry, sort descending by `prizeWon`,
truncate to 100, and report
`findIndex(entry => entry.id === newId) + 1` as the position. -/
def gameCompleteLB (lb : List LBEntry) (userId username : String)
    (r : CompleteReq) (now : Nat) : List LBEntry × Int :=
  let newId := lbNewId lb
  let e := mkCompleteEntry lb userId username r now
  let lb1 := sortTrunc (lb ++ [e])
  (lb1, jsFindIndex (fun x => x.id == newId) lb1 + 1)

/-- A completion request carrying the given final prize. -/
def reqPrize (p : Int) : CompleteReq :=
  { questionsAnswered := some 10
    correctAnswers := 8
    totalQuestions := some 16
    finalPrize := some p
    completionTime := some "2:00"
    gameCompleted := true }

/-- Leaderboard after user "a" completes with prize 100. -/
def lbA1 : List LBEntry := (gameCompleteLB [] "a" "alice" (reqPrize 100) 0).1

/-- Leaderboard after user "a" then replays with the inferior prize 50. -/
def lbA2 : List LBEntry := (gameCompleteLB lbA1 "a" "alice" (reqPrize 50) 1).1

/-- C2, counterexample.  On the `POST /api/game/complete` path the claim
fails: the handler never matches an existing entry by `userId` (or any
key) — it always appends a fresh entry.  Submitting prize 100 and then
the inferior prize 50 for the same `userId` "a" leaves two stored entries
(100 and 50) for that key, so the inferior replay is not a no-op and no
replacement-by-key occurs. -/
theorem c2_counterexample_gameComplete_always_appends :
    lbA1.map LBEntry.prizeWon = [100] ∧
    lbA2.map LBEntry.prizeWon = [100, 50] ∧
    (lbA2.filter (fun e => e.userId == "a")).length = 2 ∧
    lbA2 ≠ lbA1 := by
  decide

/-- Case analysis for `jsFindIndex`: either no element matches and the
result is `-1`, or the result is the index of the first match. -/
theorem jsFindIndex_cases {α : Type} (p : α → Bool) :
    ∀ l : List α,
      (jsFindIndex p l = -1 ∧ ∀ x ∈ l, p x = false) ∨
      (∃ (i : Nat) (x : α),
        jsFindIndex p l = (i : Int) ∧ l.get? i = some x ∧ p x = true)
  | [] => Or.inl ⟨rfl, by simp⟩
  | a :: l => by
    by_cases h : p a = true
    · exact Or.inr ⟨0, a, by simp [jsFindIndex, h], rfl, h⟩
    · rcases jsFindIndex_cases p l with ⟨h1, h2⟩ | ⟨i, x, h1, h2, h3⟩
      · refine Or.inl ⟨by simp [jsFindIndex, h, h1], ?_⟩
        intro x hx
        rcases List.mem_cons.mp hx with rfl | hx
        · simpa using h
        · exact h2 x hx
      · refine Or.inr ⟨i + 1, x, ?_, by simpa using h2, h3⟩
        have hne : ((i : Int)) ≠ -1 := by omega
        simp only [jsFindIndex, h, if_false, h1, hne, ite_false, Bool.false_eq_true]
        push_cast
        ring

/-- A result of the form `(j : Nat)` cast to `Int` is a valid index. -/
theorem jsFindIndex_natCast_lt {α : Type} {p : α → Bool} {l : List α}
    {j : Nat} (h : jsFindIndex p l = (j : Int)) : j < l.length := by
  rcases jsFindIndex_cases p l with ⟨h1, _⟩ | ⟨i, x, h1, h2, _⟩
  · rw [h1] at h
    omega
  · rw [h1] at h
    have hij : i = j := by exact_mod_cast h
    subst hij
    obtain ⟨hlt, _⟩ := List.get?_eq_some.mp h2
    exact hlt

/-- Replacing the element at a valid index is, up to permutation, removing
that element and adding the new one. -/
theorem set_perm_cons_eraseIdx {α : Type} :
    ∀ (l : List α) (i : Nat) (a : α), i < l.length →
      l.set i a ~ a :: l.eraseIdx i
  | [], i, a, h => by simp at h
  | x :: xs, 0, a, _ => by simp
  | x :: xs, i + 1, a, h => by
    have ih := set_perm_cons_eraseIdx xs i a (by simpa using Nat.lt_of_succ_lt_succ h)
    calc (x :: xs).set (i + 1) a = x :: xs.set i a := rfl
      _ ~ x :: a :: xs.eraseIdx i := ih.cons x
      _ ~ a :: x :: xs.eraseIdx i := List.Perm.swap a x _
      _ = a :: (x :: xs).eraseIdx (i + 1) := rfl

/-- A leaderboard entry of the `score`-keyed variant (the `entries` array
written by `POST /api/stats` of the legacy MongoDB server and the
file-backed `updateLeaderboard`). -/
structure LBEntryS where
  username : String
  score : Int
  questionsAnswered : Nat
  correctAnswers : Nat
  averageTimePerQuestion : Nat
  totalTime : Nat
  date : Nat
deriving DecidableEq

/-- Ordering of the comparator `(a, b) => b.score - a.score`. -/
def lbGeS (a b : LBEntryS) : Prop := b.score ≤ a.score

instance : DecidableRel lbGeS :=
  fun a b => inferInstanceAs (Decidable (b.score ≤ a.score))

instance : IsTotal LBEntryS lbGeS := ⟨fun a b => le_total b.score a.score⟩

instance : IsTrans LBEntryS lbGeS := ⟨fun _ _ _ h1 h2 => le_trans h2 h1⟩

/-- Stable descending sort by `score`. -/
def lbSortS (l : List LBEntryS) : List LBEntryS := l.insertionSort lbGeS

/-- Sort descending by `score`, then keep the first 100 entries when more
than 100 are present (legacy `POST /api/stats`, lines 843-849 of the
legacy server). -/
def sortTruncS (l : List LBEntryS) : List LBEntryS :=
  let s := lbSortS l
  if 100 < s.length then s.take 100 else s

/-- The leaderboard merge of the legacy `POST /api/stats` handler (lines
833-851 of the legacy MongoDB server; `updateLeaderboard` in
`src/index.js` is the same algorithm on the JSON file): find the first
entry with the submitter's username; if found, replace it only when the
new score is strictly greater; otherwise push a new entry; finally sort
descending and truncate to 100.  (`getD` carries a default that is never
used: when the branch is taken, the index is in range.) -/
def statsLbMerge (entries : List LBEntryS) (e : LBEntryS) : List LBEntryS :=
  let idx := jsFindIndex (fun x => x.username == e.username) entries
  let core :=
    if 0 ≤ idx then
      if (entries.getD idx.toNat e).score < e.score then
        entries.set idx.toNat e
      else entries
    else entries ++ [e]
  sortTruncS core

/-- A score-variant submission by user "a" with the given score. -/
def eSub (s : Int) : LBEntryS :=
  { username := "a"
    score := s
    questionsAnswered := 10
    correctAnswers := 8
    averageTimePerQuestion := 5
    totalTime := 50
    date := 0 }

/-- Score-variant leaderboard after "a" submits score 100. -/
def lbS1 : List LBEntryS := statsLbMerge [] (eSub 100)

/-- Score-variant leaderboard after "a" replays with the inferior 50. -/
def lbS2 : List LBEntryS := statsLbMerge lbS1 (eSub 50)

/-- A score-sorted list of at most 100 entries passes the sort-and-truncate
step unchanged. -/
theorem sortTruncS_eq_self {l : List LBEntryS} (hs : List.Sorted lbGeS l)
    (hlen : l.length ≤ 100) : sortTruncS l = l := by
  have h1 : lbSortS l = l := hs.insertionSort_eq
  simp [sortTruncS, h1, Nat.not_lt.mpr hlen]

/-- C2 (amended).  The strictly-greater replace-by-key merge holds for the
username-keyed variant (`POST /api/stats` of the legacy MongoDB server and
the file-backed `updateLeaderboard`): with no entry for the username a new
entry is appended; with an existing entry at first matching index `j`, an
inferior (or equal) submission leaves a well-formed leaderboard literally
unchanged (a no-op, not an error), and a strictly greater submission
replaces the stored entry in place (the merged list is a permutation of
the old list with the matched entry swapped for the new one).  On that
variant replaying score 50 after 100 for username "a" keeps the single
stored entry at 100. -/
theorem c2_leaderboard_strict_replace_by_username :
    (∀ (entries : List LBEntryS) (e : LBEntryS),
        jsFindIndex (fun x => x.username == e.username) entries = -1 →
        statsLbMerge entries e = sortTruncS (entries ++ [e])) ∧
    (∀ (entries : List LBEntryS) (e : LBEntryS) (j : Nat),
        jsFindIndex (fun x => x.username == e.username) entries = (j : Int) →
        ¬ (entries.getD j e).score < e.score →
        List.Sorted lbGeS entries → entries.length ≤ 100 →
        statsLbMerge entries e = entries) ∧
    (∀ (entries : List LBEntryS) (e : LBEntryS) (j : Nat),
        jsFindIndex (fun x => x.username == e.username) entries = (j : Int) →
        (entries.getD j e).score < e.score →
        statsLbMerge entries e = sortTruncS (entries.set j e) ∧
        entries.set j e ~ e :: entries.eraseIdx j) ∧
    (lbS2 = lbS1 ∧ lbS1.map LBEntryS.score = [100]) := by
  refine ⟨?_, ?_, ?_, by decide⟩
  · intro entries e h
    simp [statsLbMerge, h]
  · intro entries e j hj hlt hs hlen
    have h0 : (0 : Int) ≤ (j : Int) := Int.natCast_nonneg j
    have hlt' : ¬ (entries[j]?.getD e).score < e.score := by
      simpa [List.getD] using hlt
    have : statsLbMerge entries e = sortTruncS entries := by
      simp [statsLbMerge, hj, h0, hlt']
    rw [this]
    exact sortTruncS_eq_self hs hlen
  · intro entries e j hj hlt
    have h0 : (0 : Int) ≤ (j : Int) := Int.natCast_nonneg j
    have hlt' : (entries[j]?.getD e).score < e.score := by
      simpa [List.getD] using hlt
    refine ⟨by simp [statsLbMerge, hj, h0, hlt'], ?_⟩
    exact set_perm_cons_eraseIdx entries j e (jsFindIndex_natCast_lt hj)

/-- Witness for C2's amended theorem: an inferior replay (50 after 100)
on the username-keyed variant leaves the stored list unchanged. -/
theorem c2_leaderboard_strict_replace_by_username_witness :
    statsLbMerge [eSub 100] (eSub 50) = [eSub 100] :=
  c2_leaderboard_strict_replace_by_username.2.1 [eSub 100] (eSub 50) 0
    (by decide) (by decide) (by decide) (by decide)

/-- Sorting and truncating introduces no new elements. -/
theorem mem_of_mem_sortTrunc {l : List LBEntry} {x : LBEntry}
    (h : x ∈ sortTrunc l) : x ∈ l := by
  have hx : x ∈ lbSort l := by
    unfold sortTrunc at h
    by_cases h100 : 100 < (lbSort l).length
    · rw [if_pos h100] at h
      exact List.take_subset _ _ h
    · rwa [if_neg h100] at h
  exact (List.mem_insertionSort lbGe).mp hx

/-- The seed of the id fold is a lower bound of its result. -/
theorem le_lbFoldMax (l : List LBEntry) (a : Nat) :
    a ≤ l.foldl (fun m e => max m e.id) a := by
  induction l generalizing a with
  | nil => exact le_refl a
  | cons y ys ih =>
    exact le_trans (Nat.le_max_left a y.id) (ih (max a y.id))

/-- Every id in the list is bounded by the id fold. -/
theorem id_le_lbFoldMax {l : List LBEntry} {x : LBEntry} (hx : x ∈ l)
    (a : Nat) : x.id ≤ l.foldl (fun m e => max m e.id) a := by
  induction l generalizing a with
  | nil => cases hx
  | cons y ys ih =>
    rcases List.mem_cons.mp hx with rfl | hmem
    · exact le_trans (Nat.le_max_right a x.id) (le_lbFoldMax ys (max a x.id))
    · exact ih hmem (max a y.id)

/-- The freshly generated id differs from every stored id. -/
theorem id_ne_lbNewId {lb : List LBEntry} {x : LBEntry} (hx : x ∈ lb) :
    x.id ≠ lbNewId lb := by
  have hpos : 0 < lb.length := List.length_pos.mpr (List.ne_nil_of_mem hx)
  have hle : x.id ≤ lb.foldl (fun m e => max m e.id) 0 := id_le_lbFoldMax hx 0
  unfold lbNewId
  rw [if_pos hpos]
  omega

/-- C5.  `POST /api/game/complete` reports
`findIndex(entry => entry.id === newId) + 1` on the post-truncation list:
when the submitted entry survives truncation this is its 1-based rank
(the reported position, minus one, indexes exactly the submitted entry),
and when the entry fell outside the top 100 the reported position is the
out-of-band marker 0 (`findIndex` returned `-1`), never a valid rank. -/
theorem c5_leaderboardPosition_rank_or_zero (lb : List LBEntry)
    (userId username : String) (r : CompleteReq) (now : Nat) :
    ((gameCompleteLB lb userId username r now).2 = 0 ↔
      mkCompleteEntry lb userId username r now ∉
        (gameCompleteLB lb userId username r now).1) ∧
    (mkCompleteEntry lb userId username r now ∈
        (gameCompleteLB lb userId username r now).1 →
      1 ≤ (gameCompleteLB lb userId username r now).2 ∧
      (gameCompleteLB lb userId username r now).1.get?
          ((gameCompleteLB lb userId username r now).2.toNat - 1) =
        some (mkCompleteEntry lb userId username r now)) := by
  set e := mkCompleteEntry lb userId username r now with he
  set lb1 := sortTrunc (lb ++ [e]) with hlb1
  have hout : gameCompleteLB lb userId username r now =
      (lb1, jsFindIndex (fun x => x.id == lbNewId lb) lb1 + 1) := rfl
  have heid : e.id = lbNewId lb := rfl
  have hkey : ∀ x ∈ lb1, (x.id == lbNewId lb) = true → x = e := by
    intro x hx hid
    have hid' : x.id = lbNewId lb := by simpa using hid
    have hx' : x ∈ lb ++ [e] := mem_of_mem_sortTrunc (hlb1 ▸ hx)
    rcases List.mem_append.mp hx' with hxl | hxe
    · exact absurd hid' (id_ne_lbNewId hxl)
    · simpa using hxe
  rcases jsFindIndex_cases (fun x => x.id == lbNewId lb) lb1 with
    ⟨h1, h2⟩ | ⟨i, x, h1, h2, h3⟩
  · have hnotmem : e ∉ lb1 := by
      intro hmem
      have hfalse := h2 e hmem
      rw [heid] at hfalse
      simp at hfalse
    rw [hout]
    constructor
    · simp only [h1]
      norm_num
      exact hnotmem
    · intro hmem
      exact absurd hmem hnotmem
  · have hx : x ∈ lb1 := List.get?_mem h2
    have hxe : x = e := hkey x hx h3
    subst hxe
    rw [hout]
    constructor
    · simp only [h1]
      constructor
      · intro habs
        omega
      · intro habs
        exact absurd hx habs
    · intro _
      simp only [h1]
      refine ⟨by omega, ?_⟩
      have : (((i : Int) + 1).toNat - 1) = i := by omega
      rw [this]
      exact h2

/-- Witness for C5: on an empty leaderboard a completion with prize 100
is ranked, and its reported position indexes the submitted entry. -/
theorem c5_leaderboardPosition_rank_or_zero_witness :
    1 ≤ (gameCompleteLB [] "w5" "carol" (reqPrize 100) 0).2 ∧
    (gameCompleteLB [] "w5" "carol" (reqPrize 100) 0).1.get?
        ((gameCompleteLB [] "w5" "carol" (reqPrize 100) 0).2.toNat - 1) =
      some (mkCompleteEntry [] "w5" "carol" (reqPrize 100) 0) :=
  (c5_leaderboardPosition_rank_or_zero [] "w5" "carol" (reqPrize 100) 0).2
    (by decide)

/-- Combined state touched by `POST /api/game/complete`: the submitting
user's stats record (`Stats.findOne({ username })`) and the single
leaderboard document. -/
structure GCState where
  stats : Option Stats
  lb : List LBEntry
deriving DecidableEq

/-- The response of `POST /api/game/complete` (src/index.js lines
822-841): both branches answer success; only the prize branch carries a
`leaderboardPosition`.  (The `message` and echoed `stats` fields carry no
additional state and are omitted.) -/
structure GCResp where
  success : Bool
  leaderboardPosition : Option Int
deriving DecidableEq

/-- The truthiness test `if (finalPrize > 0)` (src/index.js line 788):
an absent `finalPrize` is `undefined`, and `undefined > 0` is false. -/
def finalPrizeGuard (o : Option Int) : Bool :=
  match o with
  | none => false
  | some v => 0 < v

/-- The whole `POST /api/game/complete` handler (src/index.js lines
746-847): update the stats record, then — only when `finalPrize > 0` —
push, sort and truncate the leaderboard and report the position. -/
def gameComplete (st : GCState) (userId username : String)
    (newStatId : Nat) (now : Nat) (r : CompleteReq) : GCState × GCResp :=
  let s1 := statsAfterComplete st.stats userId username newStatId r
  if finalPrizeGuard r.finalPrize then
    let out := gameCompleteLB st.lb userId username r now
    ({ stats := some s1, lb := out.1 },
      { success := true, leaderboardPosition := some out.2 })
  else
    ({ stats := some s1, lb := st.lb },
      { success := true, leaderboardPosition := none })

/-- C9.  When `finalPrize` is absent, zero or negative, the guard
`finalPrize > 0` fails, so the handler leaves the leaderboard collection
untouched (same list, no append, no resort, no truncation), still writes
the updated stats record, and still responds successfully — with no
`leaderboardPosition` in the response. -/
theorem c9_no_prize_leaves_leaderboard_unchanged
    (st : GCState) (userId username : String) (newStatId now : Nat)
    (r : CompleteReq)
    (h : r.finalPrize = none ∨ ∃ v : Int, r.finalPrize = some v ∧ v ≤ 0) :
    (gameComplete st userId username newStatId now r).1.lb = st.lb ∧
    (gameComplete st userId username newStatId now r).1.stats =
      some (statsAfterComplete st.stats userId username newStatId r) ∧
    (gameComplete st userId username newStatId now r).2.success = true ∧
    (gameComplete st userId username newStatId now r).2.leaderboardPosition
      = none := by
  have hguard : finalPrizeGuard r.finalPrize = false := by
    rcases h with h | ⟨v, hv, hvle⟩
    · rw [h]
      rfl
    · rw [hv]
      simp [finalPrizeGuard]
      omega
  refine ⟨?_, ?_, ?_, ?_⟩ <;> simp [gameComplete, hguard]

/-- Witness for C9: a completion reporting prize 0 updates the stats
record but leaves a one-entry leaderboard exactly as it was. -/
theorem c9_no_prize_leaves_leaderboard_unchanged_witness :
    (gameComplete { stats := none, lb := lbA1 } "u9" "dave" 7 3
        (reqPrize 0)).1.lb = lbA1 ∧
    (gameComplete { stats := none, lb := lbA1 } "u9" "dave" 7 3
        (reqPrize 0)).1.stats =
      some (statsAfterComplete none "u9" "dave" 7 (reqPrize 0)) ∧
    (gameComplete { stats := none, lb := lbA1 } "u9" "dave" 7 3
        (reqPrize 0)).2.success = true ∧
    (gameComplete { stats := none, lb := lbA1 } "u9" "dave" 7 3
        (reqPrize 0)).2.leaderboardPosition = none :=
  c9_no_prize_leaves_leaderboard_unchanged
    { stats := none, lb := lbA1 } "u9" "dave" 7 3 (reqPrize 0)
    (Or.inr ⟨0, rfl, le_refl 0⟩)

/-- A falsy-or-absent optional number leaves the JavaScript fallback. -/
theorem jsOrNat_falsy {o : Option Nat} {d : Nat}
    (h : o = none ∨ o = some 0) : jsOrNat o d = d := by
  rcases h with h | h <;> simp [jsOrNat, h]

/-- `x || d` on numbers can only be zero when the fallback is zero. -/
theorem jsOrNat_eq_zero {o : Option Nat} {d : Nat}
    (h : jsOrNat o d = 0) : d = 0 := by
  rcases o with _ | v
  · exact h
  · by_cases hv : v = 0
    · simpa [jsOrNat, hv] using h
    · simp [jsOrNat, hv] at h

/-- A falsy-or-absent optional integer leaves the JavaScript fallback. -/
theorem jsOrInt_falsy {o : Option Int} {d : Int}
    (h : o = none ∨ o = some 0) : jsOrInt o d = d := by
  rcases h with h | h <;> simp [jsOrInt, h]

/-- `x || d` on integers can only be zero when the fallback is zero. -/
theorem jsOrInt_eq_zero {o : Option Int} {d : Int}
    (h : jsOrInt o d = 0) : d = 0 := by
  rcases o with _ | v
  · exact h
  · by_cases hv : v = 0
    · simpa [jsOrInt, hv] using h
    · simp [jsOrInt, hv] at h

/-- A falsy-or-absent optional string leaves the JavaScript fallback. -/
theorem jsOrStr_falsy {o : Option String} {d : String}
    (h : o = none ∨ o = some "") : jsOrStr o d = d := by
  rcases h with h | h <;> simp [jsOrStr, h]

/-- The request body of `POST /api/stats` on the MongoDB variant
(src/index.js lines 691-700), restricted to the fields the update branch
reads.  All values are client-supplied and possibly absent. -/
structure StatsReq where
  gamesPlayed : Option Nat
  gamesCompleted : Option Nat
  totalPrizeMoney : Option Int
  questionsAnswered : Option Nat
  accuracy : Option Nat
  averageCompletionTime : Option String
deriving DecidableEq

/-- The update branch of `POST /api/stats` (src/index.js lines 704-712):
every field is taken from the request unless falsy, in which case the
stored value is kept — with `gamesPlayed` falling back to the stored
value plus one. -/
def statsUpdateExisting (s : Stats) (r : StatsReq) : Stats :=
  { s with
    gamesPlayed := jsOrNat r.gamesPlayed (s.gamesPlayed + 1)
    gamesCompleted := jsOrNat r.gamesCompleted s.gamesCompleted
    totalPrizeMoney := jsOrInt r.totalPrizeMoney s.totalPrizeMoney
    questionsAnswered := jsOrNat r.questionsAnswered s.questionsAnswered
    accuracy := jsOrNat r.accuracy s.accuracy
    averageCompletionTime :=
      jsOrStr r.averageCompletionTime s.averageCompletionTime }

/-- C10.  On an existing record, a falsy supplied value (absent, `0`, or
`""` for the completion-time string) behaves exactly like an absent one:
the stored value is retained, `gamesPlayed` falling back to the stored
value plus one; consequently none of the numeric counters can be reset
to zero through this operation (a zero result implies the stored value
was already zero, and `gamesPlayed` can never become zero). -/
theorem c10_stats_update_falsy_fields_retained (s : Stats) (r : StatsReq) :
    ((r.gamesPlayed = none ∨ r.gamesPlayed = some 0) →
      (statsUpdateExisting s r).gamesPlayed = s.gamesPlayed + 1) ∧
    ((r.gamesCompleted = none ∨ r.gamesCompleted = some 0) →
      (statsUpdateExisting s r).gamesCompleted = s.gamesCompleted) ∧
    ((r.totalPrizeMoney = none ∨ r.totalPrizeMoney = some 0) →
      (statsUpdateExisting s r).totalPrizeMoney = s.totalPrizeMoney) ∧
    ((r.questionsAnswered = none ∨ r.questionsAnswered = some 0) →
      (statsUpdateExisting s r).questionsAnswered = s.questionsAnswered) ∧
    ((r.accuracy = none ∨ r.accuracy = some 0) →
      (statsUpdateExisting s r).accuracy = s.accuracy) ∧
    ((r.averageCompletionTime = none ∨ r.averageCompletionTime = some "") →
      (statsUpdateExisting s r).averageCompletionTime =
        s.averageCompletionTime) ∧
    (statsUpdateExisting s r).gamesPlayed ≠ 0 ∧
    ((statsUpdateExisting s r).gamesCompleted = 0 → s.gamesCompleted = 0) ∧
    ((statsUpdateExisting s r).totalPrizeMoney = 0 →
      s.totalPrizeMoney = 0) ∧
    ((statsUpdateExisting s r).questionsAnswered = 0 →
      s.questionsAnswered = 0) ∧
    ((statsUpdateExisting s r).accuracy = 0 → s.accuracy = 0) := by
  refine ⟨fun h => jsOrNat_falsy h, fun h => jsOrNat_falsy h,
    fun h => jsOrInt_falsy h, fun h => jsOrNat_falsy h,
    fun h => jsOrNat_falsy h, fun h => jsOrStr_falsy h, ?_, ?_, ?_, ?_, ?_⟩
  · intro h
    have := jsOrNat_eq_zero h
    omega
  · exact fun h => jsOrNat_eq_zero h
  · exact fun h => jsOrInt_eq_zero h
  · exact fun h => jsOrNat_eq_zero h
  · exact fun h => jsOrNat_eq_zero h

/-- Witness for C10: a request supplying 0 for every numeric field (and
an empty completion time) leaves Bob's first-game record's counters
unchanged, with `gamesPlayed` bumped by one. -/
theorem c10_stats_update_falsy_fields_retained_witness :
    (statsUpdateExisting bobStats1
        { gamesPlayed := some 0, gamesCompleted := some 0,
          totalPrizeMoney := some 0, questionsAnswered := some 0,
          accuracy := some 0, averageCompletionTime := some "" }).gamesPlayed
      = bobStats1.gamesPlayed + 1 ∧
    (statsUpdateExisting bobStats1
        { gamesPlayed := some 0, gamesCompleted := some 0,
          totalPrizeMoney := some 0, questionsAnswered := some 0,
          accuracy := some 0, averageCompletionTime := some "" }).accuracy
      = bobStats1.accuracy :=
  ⟨(c10_stats_update_falsy_fields_retained bobStats1
      { gamesPlayed := some 0, gamesCompleted := some 0,
        totalPrizeMoney := some 0, questionsAnswered := some 0,
        accuracy := some 0, averageCompletionTime := some "" }).1
      (Or.inr rfl),
    (c10_stats_update_falsy_fields_retained bobStats1
      { gamesPlayed := some 0, gamesCompleted := some 0,
        totalPrizeMoney := some 0, questionsAnswered := some 0,
        accuracy := some 0, averageCompletionTime := some "" }).2.2.2.2.1
      (Or.inr rfl)⟩

/-- The valid difficulty levels (`LEVELS` in src/index.js line 22). -/
def LEVELS : List String := ["easy", "medium", "hard"]

/-- Possible responses of `POST /api/check-answer`: HTTP 400 for an
invalid level, HTTP 404 when the id is not in the level's catalog, and
otherwise the correctness verdict with the stored answer echoed only on
a wrong submission. -/
inductive CheckAnswerResult where
  | invalidLevel : CheckAnswerResult
  | notFound : CheckAnswerResult
  | answered (correct : Bool) (correctAnswer : Option String) :
      CheckAnswerResult
deriving DecidableEq

/-- `POST /api/check-answer` (src/index.js lines 1031-1046).  `catalogs`
models `getQuestions`, reading the per-level JSON file. -/
def checkAnswer (catalogs : String → List Question)
    (level questionId answer : String) : CheckAnswerResult :=
  if level ∉ LEVELS then CheckAnswerResult.invalidLevel
  else
    match (catalogs level).find? (fun q => q.id == questionId) with
    | none => CheckAnswerResult.notFound
    | some q =>
      CheckAnswerResult.answered (q.answer == answer)
        (if q.answer == answer then none else some q.answer)

/-- In a catalog with unique ids, `find` by id returns the unique
question bearing that id. -/
theorem find_by_unique_id {q : Question} {questionId : String} :
    ∀ {l : List Question}, q ∈ l → q.id = questionId →
      (l.map Question.id).Nodup →
      l.find? (fun x => x.id == questionId) = some q
  | [], hq, _, _ => by cases hq
  | a :: t, hq, hid, hnd => by
    rcases List.mem_cons.mp hq with rfl | hmem
    · simp [List.find?, hid]
    · have hnd1 : a.id ∉ t.map Question.id := (List.nodup_cons.mp hnd).1
      have hnd2 : (t.map Question.id).Nodup := (List.nodup_cons.mp hnd).2
      have hane : a.id ≠ questionId := by
        intro hae
        exact hnd1 (hae ▸ hid ▸ List.mem_map_of_mem Question.id hmem)
      have : (a.id == questionId) = false := by
        simpa using hane
      simp only [List.find?, this]
      exact find_by_unique_id hmem hid hnd2

/-- C8.  For a valid level: when no question in that level's catalog
bears the requested id, `check-answer` answers the explicit not-found
result (HTTP 404) — in particular it never reports `correct = true`;
when the (unique) question with that id is present, the verdict is
correctness iff the submitted answer equals the stored one, with
`correctAnswer` null on a correct submission and the stored answer
string otherwise. -/
theorem c8_check_answer_not_found_or_verdict
    (catalogs : String → List Question) (level questionId answer : String) :
    (level ∈ LEVELS → (∀ q ∈ catalogs level, q.id ≠ questionId) →
      checkAnswer catalogs level questionId answer =
        CheckAnswerResult.notFound) ∧
    (∀ q ∈ catalogs level, level ∈ LEVELS →
      ((catalogs level).map Question.id).Nodup → q.id = questionId →
      ((q.answer = answer →
          checkAnswer catalogs level questionId answer =
            CheckAnswerResult.answered true none) ∧
        (q.answer ≠ answer →
          checkAnswer catalogs level questionId answer =
            CheckAnswerResult.answered false (some q.answer)))) := by
  constructor
  · intro hlvl habs
    have hfind : (catalogs level).find? (fun q => q.id == questionId)
        = none := by
      apply List.find?_eq_none.mpr
      intro x hx
      simpa using habs x hx
    simp [checkAnswer, hlvl, hfind]
  · intro q hq hlvl hnd hid
    have hfind := find_by_unique_id hq hid hnd
    constructor
    · intro ha
      simp [checkAnswer, hlvl, hfind, ha]
    · intro ha
      have : (q.answer == answer) = false := by simpa using ha
      simp [checkAnswer, hlvl, hfind, this]

/-- The one-question easy catalog used to witness C8. -/
def catW8 : String → List Question := fun level =>
  if level = "easy" then
    [{ id := "q1", question := "2+2?", options := ["3", "4"],
       answer := "4", level := "easy" }]
  else []

/-- Witness for C8: an id absent from the easy catalog is answered with
the not-found result, and the present question with a wrong submission
yields `correct = false` with the stored answer echoed. -/
theorem c8_check_answer_not_found_or_verdict_witness :
    checkAnswer catW8 "easy" "zz" "4" = CheckAnswerResult.notFound ∧
    checkAnswer catW8 "easy" "q1" "3" =
      CheckAnswerResult.answered false (some "4") :=
  ⟨(c8_check_answer_not_found_or_verdict catW8 "easy" "zz" "4").1
      (by decide) (by decide),
    ((c8_check_answer_not_found_or_verdict catW8 "easy" "q1" "3").2
      { id := "q1", question := "2+2?", options := ["3", "4"],
        answer := "4", level := "easy" }
      (by decide) (by decide) (by decide) rfl).2 (by decide)⟩

/-- Mutable state consulted by `POST /api/questions`: the Mongo question
collection, the user's Mongo answered-id list
(`user.questionsAnswered`), and the user's entry in the JSON file
`user_questions.json`.  The two answered-id lists are distinct stores. -/
structure QState where
  mongoQs : List Question
  mongoAnswered : List String
  fileAnswered : List String
deriving DecidableEq

/-- The primary-store query
`Question.find({ level, id: { $nin: user.questionsAnswered } }).limit(count)`
(legacy MongoDB server, lines 686-689): the first `count` stored
questions of the level whose id the user has not been served. -/
def primaryQuery (st : QState) (level : String) (count : Nat) :
    List Question :=
  (st.mongoQs.filter
    (fun q => q.level == level && !(st.mongoAnswered.contains q.id))).take
    count

/-- The level-filtered `POST /api/questions` handler (legacy MongoDB
server, lines 673-724; the `src/index.js` variant at lines 573-622 is the
same logic without the level filter).  `jsonCatalog` models
`getQuestions(level)` reading `data/<level>.json`.  When the primary
query yields no questions the handler falls back to the JSON catalog
filtered by the *file-backed* per-user list, extends that list, and
backfills the Mongo collection with the selected questions (tagged with
the requested level); otherwise it returns the Mongo matches and extends
the user's *Mongo* answered list. -/
def questionsHandler (jsonCatalog : String → List Question)
    (st : QState) (level : String) (count : Nat) :
    List Question × QState :=
  let qs := primaryQuery st level count
  if qs.isEmpty then
    let unused := (jsonCatalog level).filter
      (fun q => !(st.fileAnswered.contains q.id))
    let selected := unused.take count
    (selected,
      { st with
        fileAnswered := st.fileAnswered ++ selected.map Question.id
        mongoQs :=
          st.mongoQs ++ selected.map (fun q => { q with level := level }) })
  else
    (qs, { st with mongoAnswered := st.mongoAnswered ++ qs.map Question.id })

/-- Easy question "A", present in both stores of the C3 scenario. -/
def qA : Question :=
  { id := "A", question := "qa", options := ["x", "y"], answer := "x",
    level := "easy" }

/-- Easy question "B", present only in the JSON catalog. -/
def qB : Question :=
  { id := "B", question := "qb", options := ["x", "y"], answer := "y",
    level := "easy" }

/-- JSON catalog of the C3 scenario: easy holds questions "A" and "B". -/
def jsonCatW : String → List Question := fun level =>
  if level = "easy" then [qA, qB] else []

/-- Initial state of the C3 scenario: Mongo holds only "A"; the user has
been served nothing in either store. -/
def c3st0 : QState :=
  { mongoQs := [qA], mongoAnswered := [], fileAnswered := [] }

/-- State after the first one-question batch request. -/
def c3st1 : QState := (questionsHandler jsonCatW c3st0 "easy" 1).2

/-- C3, counterexample.  The first request is served from the primary
store and returns "A", recording it only in the Mongo answered list; the
second request finds no unanswered Mongo question, falls back to the JSON
catalog filtered by the (still empty) file-backed list, and returns "A"
again — even though the unseen question "B" exists in that tier.  The
claimed cross-path no-repeat property is therefore false. -/
theorem c3_counterexample_repeat_across_paths :
    (questionsHandler jsonCatW c3st0 "easy" 1).1.map Question.id = ["A"] ∧
    c3st1.mongoAnswered = ["A"] ∧
    (questionsHandler jsonCatW c3st1 "easy" 1).1.map Question.id = ["A"] ∧
    qB ∈ jsonCatW "easy" ∧
    "B" ∉ (questionsHandler jsonCatW c3st0 "easy" 1).1.map Question.id ++
        (questionsHandler jsonCatW c3st1 "easy" 1).1.map Question.id := by
  decide

/-- C3 (amended).  Within each path separately the no-repeat contract
holds: the primary path never returns an id in the user's Mongo
answered list and immediately appends exactly the returned ids to that
list (leaving the file-backed list alone); the fallback path never
returns an id in the user's file-backed list and immediately appends
exactly the returned ids there (backfilling the primary store).  The
two lists are separate stores, so — as the counterexample shows — an id
can repeat across the two paths. -/
theorem c3_no_repeat_within_each_path (jsonCatalog : String → List Question)
    (st : QState) (level : String) (count : Nat) :
    (¬ (primaryQuery st level count).isEmpty →
      (questionsHandler jsonCatalog st level count).1 =
        primaryQuery st level count ∧
      (∀ q ∈ (questionsHandler jsonCatalog st level count).1,
        q.id ∉ st.mongoAnswered) ∧
      (questionsHandler jsonCatalog st level count).2.mongoAnswered =
        st.mongoAnswered ++
          ((questionsHandler jsonCatalog st level count).1.map Question.id) ∧
      (questionsHandler jsonCatalog st level count).2.fileAnswered =
        st.fileAnswered) ∧
    ((primaryQuery st level count).isEmpty →
      (∀ q ∈ (questionsHandler jsonCatalog st level count).1,
        q.id ∉ st.fileAnswered) ∧
      (questionsHandler jsonCatalog st level count).2.fileAnswered =
        st.fileAnswered ++
          ((questionsHandler jsonCatalog st level count).1.map Question.id) ∧
      (questionsHandler jsonCatalog st level count).2.mongoQs =
        st.mongoQs ++
          ((questionsHandler jsonCatalog st level count).1.map
            (fun q => { q with level := level })) ∧
      (questionsHandler jsonCatalog st level count).2.mongoAnswered =
        st.mongoAnswered) := by
  constructor
  · intro hne
    have hne' : (primaryQuery st level count).isEmpty = false := by
      simpa using hne
    refine ⟨by simp [questionsHandler, hne'], ?_, ?_, ?_⟩
    · intro q hq
      have hq1 : q ∈ primaryQuery st level count := by
        simpa [questionsHandler, hne'] using hq
      have hq2 : q ∈ st.mongoQs.filter
          (fun q => q.level == level && !(st.mongoAnswered.contains q.id)) :=
        List.take_subset _ _ hq1
      have hq3 := (List.mem_filter.mp hq2).2
      simp only [Bool.and_eq_true, Bool.not_eq_true'] at hq3
      simpa using hq3.2
    · simp [questionsHandler, hne']
    · simp [questionsHandler, hne']
  · intro hemp
    have hemp' : (primaryQuery st level count).isEmpty = true := hemp
    refine ⟨?_, by simp [questionsHandler, hemp'], by simp [questionsHandler, hemp'],
      by simp [questionsHandler, hemp']⟩
    intro q hq
    have hq1 : q ∈ ((jsonCatalog level).filter
        (fun q => !(st.fileAnswered.contains q.id))).take count := by
      simpa [questionsHandler, hemp'] using hq
    have hq2 := (List.mem_filter.mp (List.take_subset _ _ hq1)).2
    simp only [Bool.not_eq_true'] at hq2
    simpa using hq2

/-- Witness for C3's amended theorem: on the second request of the
scenario the fallback branch extends the file-backed list with exactly
the returned ids and leaves the Mongo answered list alone. -/
theorem c3_no_repeat_within_each_path_witness :
    (questionsHandler jsonCatW c3st1 "easy" 1).2.fileAnswered =
      c3st1.fileAnswered ++
        ((questionsHandler jsonCatW c3st1 "easy" 1).1.map Question.id) ∧
    (questionsHandler jsonCatW c3st1 "easy" 1).2.mongoAnswered =
      c3st1.mongoAnswered :=
  ⟨((c3_no_repeat_within_each_path jsonCatW c3st1 "easy" 1).2
      (by decide)).2.1,
    ((c3_no_repeat_within_each_path jsonCatW c3st1 "easy" 1).2
      (by decide)).2.2.2⟩

/-- An item of the assembled game (the objects pushed at src/index.js
lines 498-507): the question content plus position-derived metadata;
`answer` is `q.options.indexOf(q.answer)` — a zero-based index, `-1`
when the stored answer is not among the options. -/
structure GameQ where
  id : String
  question : String
  options : List String
  answer : Int
  questionNumber : Nat
  timeLimit : Nat
  level : String
  prizeValue : Nat
deriving DecidableEq

/-- `Array.prototype.indexOf`: first index of the value, `-1` if absent. -/
def jsIndexOf (l : List String) (x : String) : Int :=
  jsFindIndex (fun y => y == x) l

/-- The prize ladder of the 16 positions (src/index.js lines 470-474). -/
def prizeStructure : List Nat :=
  [1000, 2000, 3000,
    5000, 10000, 20000, 50000, 100000, 200000,
    500000, 1000000, 2000000, 5000000, 10000000, 50000000, 700000000]

/-- Position-based time limit (src/index.js lines 487-496): default 10,
20 for zero-based positions 3 to 8, 30 from position 9 on. -/
def timeLimitAt (i : Nat) : Nat :=
  if 3 ≤ i ∧ i < 9 then 20 else if 9 ≤ i then 30 else 10

/-- Position-based level tag, assigned alongside the time limit. -/
def levelAt (i : Nat) : String :=
  if 3 ≤ i ∧ i < 9 then "medium" else if 9 ≤ i then "hard" else "easy"

/-- One assembled item at zero-based position `i` (src/index.js lines
498-507; the padding body at lines 532-541 builds the same shape with
`prizeStructure[questionIndex] || 1000000`, hence the `getD` fallback,
which no in-range position reaches). -/
def mkGameQ (i : Nat) (q : Question) : GameQ :=
  { id := q.id
    question := q.question
    options := q.options
    answer := jsIndexOf q.options q.answer
    questionNumber := i + 1
    timeLimit := timeLimitAt i
    level := levelAt i
    prizeValue := prizeStructure.getD i 1000000 }

/-- `getRandomQuestions` (src/index.js lines 360-367): the whole pool
when it has at most `count` questions, otherwise the first `count` of a
random shuffle; the shuffle outcome is the explicit `shuffled` argument
(a permutation of the pool). -/
def getRandomQuestions (pool shuffled : List Question) (count : Nat) :
    List Question :=
  if pool.length ≤ count then pool else shuffled.take count

/-- `selectedQuestions.forEach((q, i) => ...)` (src/index.js lines
485-508): annotate each selected question with its position data. -/
def buildItems : Nat → List Question → List GameQ
  | _, [] => []
  | i, q :: qs => mkGameQ i q :: buildItems (i + 1) qs

/-- Placeholder question for the unreachable out-of-range list read in
the padding loop. -/
def defaultQ : Question :=
  { id := "", question := "", options := [], answer := "", level := "" }

/-- The padding `while` loop (src/index.js lines 514-543) with an
explicit iteration budget: iteration `k` draws the random index
`choices k % catalog.length` (as `Math.floor(Math.random() * length)`
always lies in range); a draw whose id is already present is skipped,
otherwise the question is appended at the next position.  The JavaScript
loop runs until 16 items are reached or the catalog is empty; `fuel`
bounds how many iterations are modelled. -/
def padLoop (catalog : List Question) (choices : Nat → Nat) :
    Nat → Nat → List GameQ → List GameQ
  | 0, _, acc => acc
  | fuel + 1, k, acc =>
    if acc.length < 16 ∧ 0 < catalog.length then
      let randomQ := catalog.getD (choices k % catalog.length) defaultQ
      if (acc.map GameQ.id).contains randomQ.id then
        padLoop catalog choices fuel (k + 1) acc
      else
        padLoop catalog choices fuel (k + 1)
          (acc ++ [mkGameQ acc.length randomQ])
    else acc

/-- Response of `POST /api/game/questions`: the handler always answers
HTTP 200 (`ok`) with the assembled list and a constant
`totalQuestions: 16` (src/index.js lines 557-565). -/
structure GameQResp where
  questions : List GameQ
  totalQuestions : Nat
  ok : Bool
deriving DecidableEq

/-- The `POST /api/game/questions` handler (src/index.js lines 455-570):
select up to 16 random questions, annotate by position, pad through the
loop when fewer than 16 were built, slice to 16 and respond. -/
def gameQuestionsHandler (catalog shuffled : List Question)
    (choices : Nat → Nat) (fuel : Nat) : GameQResp :=
  let selected := getRandomQuestions catalog shuffled 16
  let base := buildItems 0 selected
  let padded :=
    if base.length < 16 then padLoop catalog choices fuel 0 base else base
  { questions := padded.take 16, totalQuestions := 16, ok := true }

/-- The list `[g i, g (i+1), ..., g (i+n-1)]` of position values. -/
def posList {β : Type} (g : Nat → β) : Nat → Nat → List β
  | _, 0 => []
  | i, n + 1 => g i :: posList g (i + 1) n

/-- `buildItems` has one item per selected question. -/
theorem buildItems_length : ∀ (i : Nat) (l : List Question),
    (buildItems i l).length = l.length
  | _, [] => rfl
  | i, _ :: qs => by simp [buildItems, buildItems_length (i + 1) qs]

/-- Mapping a position-determined attribute over `buildItems` yields the
corresponding position list. -/
theorem buildItems_map_idx {β : Type} (f : GameQ → β) (g : Nat → β)
    (hfg : ∀ (i : Nat) (q : Question), f (mkGameQ i q) = g i) :
    ∀ (i : Nat) (l : List Question),
      (buildItems i l).map f = posList g i l.length
  | _, [] => rfl
  | i, q :: qs => by
    simp [buildItems, posList, hfg i q, buildItems_map_idx f g hfg (i + 1) qs]

/-- Mapping a question-determined attribute over `buildItems` matches the
map over the selected questions. -/
theorem buildItems_map_val {β : Type} (f : GameQ → β) (g : Question → β)
    (hfg : ∀ (i : Nat) (q : Question), f (mkGameQ i q) = g q) :
    ∀ (i : Nat) (l : List Question), (buildItems i l).map f = l.map g
  | _, [] => rfl
  | i, q :: qs => by
    simp [buildItems, hfg i q, buildItems_map_val f g hfg (i + 1) qs]

/-- Every built item comes from a selected question. -/
theorem mem_buildItems : ∀ {i : Nat} {l : List Question} {x : GameQ},
    x ∈ buildItems i l → ∃ (j : Nat) (q : Question), q ∈ l ∧ x = mkGameQ j q := by
  intro i l
  induction l generalizing i with
  | nil => intro x hx; cases hx
  | cons q qs ih =>
    intro x hx
    rcases List.mem_cons.mp hx with rfl | hx
    · exact ⟨i, q, List.mem_cons_self q qs, rfl⟩
    · obtain ⟨j, p, hp, hx⟩ := ih hx
      exact ⟨j, p, List.mem_cons_of_mem q hp, hx⟩

/-- `indexOf` on a member returns a valid index holding that value. -/
theorem jsIndexOf_of_mem {l : List String} {x : String} (hx : x ∈ l) :
    ∃ i : Nat, jsIndexOf l x = (i : Int) ∧ l.get? i = some x := by
  rcases jsFindIndex_cases (fun y => y == x) l with ⟨_, h2⟩ | ⟨i, y, h1, h2, h3⟩
  · have := h2 x hx
    simp at this
  · have hyx : y = x := by simpa using h3
    exact ⟨i, h1, hyx ▸ h2⟩

/-- C6.  With a catalog of at least 16 questions with distinct ids (and
stored answers that occur among their options), the builder returns
exactly 16 items with pairwise-distinct ids, whose position data follows
the fixed schedule — positions 1-3 easy with limit 10 and prizes
1000/2000/3000, positions 4-9 medium with limit 20 and prizes 5000 to
200000, positions 10-16 hard with limit 30 and prizes 500000 to
700000000 — and each item carries the zero-based index of its correct
option rather than the answer text.  Tier data depends only on the
position. -/
theorem c6_game_session_structure (catalog shuffled : List Question)
    (choices : Nat → Nat) (fuel : Nat) (out : List GameQ)
    (hout : out = (gameQuestionsHandler catalog shuffled choices fuel).questions)
    (hlen : 16 ≤ catalog.length) (hperm : shuffled ~ catalog)
    (hnd : (catalog.map Question.id).Nodup)
    (hans : ∀ q ∈ catalog, q.answer ∈ q.options) :
    out.length = 16 ∧
    (out.map GameQ.id).Nodup ∧
    out.map GameQ.questionNumber =
      [1, 2, 3, 4, 5, 6, 7, 8, 9, 10, 11, 12, 13, 14, 15, 16] ∧
    out.map GameQ.timeLimit =
      [10, 10, 10, 20, 20, 20, 20, 20, 20, 30, 30, 30, 30, 30, 30, 30] ∧
    out.map GameQ.level =
      ["easy", "easy", "easy", "medium", "medium", "medium", "medium",
        "medium", "medium", "hard", "hard", "hard", "hard", "hard",
        "hard", "hard"] ∧
    out.map GameQ.prizeValue = prizeStructure ∧
    (∀ item ∈ out, ∃ q ∈ catalog, item.id = q.id ∧
      item.options = q.options ∧ 0 ≤ item.answer ∧
      item.options.get? item.answer.toNat = some q.answer) ∧
    (gameQuestionsHandler catalog shuffled choices fuel).ok = true := by
  have hshlen : shuffled.length = catalog.length := hperm.length_eq
  have hsel_len : (getRandomQuestions catalog shuffled 16).length = 16 := by
    by_cases hc : catalog.length ≤ 16
    · have h16 : catalog.length = 16 := le_antisymm hc hlen
      simp [getRandomQuestions, hc, h16]
    · simp only [getRandomQuestions, if_neg hc, List.length_take]
      omega
  have hsel_sub : ∀ q ∈ getRandomQuestions catalog shuffled 16,
      q ∈ catalog := by
    intro q hq
    by_cases hc : catalog.length ≤ 16
    · simpa [getRandomQuestions, hc] using hq
    · rw [getRandomQuestions, if_neg hc] at hq
      exact hperm.mem_iff.mp (List.take_subset _ _ hq)
  have hsel_nd :
      ((getRandomQuestions catalog shuffled 16).map Question.id).Nodup := by
    by_cases hc : catalog.length ≤ 16
    · simpa [getRandomQuestions, hc] using hnd
    · rw [getRandomQuestions, if_neg hc, List.map_take]
      have hsh : (shuffled.map Question.id).Nodup :=
        ((hperm.map Question.id).nodup_iff).mpr hnd
      exact hsh.sublist (List.take_sublist _ _)
  have hbase_len :
      (buildItems 0 (getRandomQuestions catalog shuffled 16)).length = 16 := by
    rw [buildItems_length, hsel_len]
  have hout_eq : out = buildItems 0 (getRandomQuestions catalog shuffled 16) := by
    rw [hout]
    show (if (buildItems 0 (getRandomQuestions catalog shuffled 16)).length < 16
        then padLoop catalog choices fuel 0
          (buildItems 0 (getRandomQuestions catalog shuffled 16))
        else buildItems 0 (getRandomQuestions catalog shuffled 16)).take 16 =
      buildItems 0 (getRandomQuestions catalog shuffled 16)
    rw [hbase_len, if_neg (lt_irrefl 16)]
    exact List.take_of_length_le (le_of_eq hbase_len)
  refine ⟨?_, ?_, ?_, ?_, ?_, ?_, ?_, rfl⟩
  · rw [hout_eq, buildItems_length, hsel_len]
  · rw [hout_eq,
      buildItems_map_val GameQ.id Question.id (fun _ _ => rfl)]
    exact hsel_nd
  · rw [hout_eq,
      buildItems_map_idx GameQ.questionNumber (fun i => i + 1)
        (fun _ _ => rfl), hsel_len]
    decide
  · rw [hout_eq,
      buildItems_map_idx GameQ.timeLimit timeLimitAt (fun _ _ => rfl),
      hsel_len]
    decide
  · rw [hout_eq,
      buildItems_map_idx GameQ.level levelAt (fun _ _ => rfl), hsel_len]
    decide
  · rw [hout_eq,
      buildItems_map_idx GameQ.prizeValue
        (fun i => prizeStructure.getD i 1000000) (fun _ _ => rfl), hsel_len]
    decide
  · intro item hitem
    rw [hout_eq] at hitem
    obtain ⟨j, q, hq, rfl⟩ := mem_buildItems hitem
    have hqc : q ∈ catalog := hsel_sub q hq
    obtain ⟨i, hi1, hi2⟩ := jsIndexOf_of_mem (hans q hqc)
    refine ⟨q, hqc, rfl, rfl, ?_, ?_⟩
    · show 0 ≤ jsIndexOf q.options q.answer
      rw [hi1]
      exact Int.natCast_nonneg i
    · show q.options.get? (jsIndexOf q.options q.answer).toNat = some q.answer
      rw [hi1]
      simpa using hi2

/-- A question of the 16-question witness catalog. -/
def mkQW (i : Nat) : Question :=
  { id := toString i, question := "q", options := ["x", "y"],
    answer := "y", level := "easy" }

/-- A concrete catalog of 16 questions with distinct ids. -/
def catW6 : List Question := (List.range 16).map mkQW

/-- Witness for C6: on the concrete 16-question catalog (trivial shuffle)
the builder emits 16 items whose prize column is the fixed ladder. -/
theorem c6_game_session_structure_witness :
    (gameQuestionsHandler catW6 catW6 (fun _ => 0) 0).questions.length
      = 16 ∧
    (gameQuestionsHandler catW6 catW6 (fun _ => 0) 0).questions.map
        GameQ.prizeValue = prizeStructure :=
  ⟨(c6_game_session_structure catW6 catW6 (fun _ => 0) 0 _ rfl
      (by decide) (List.Perm.refl catW6) (by decide) (by decide)).1,
    (c6_game_session_structure catW6 catW6 (fun _ => 0) 0 _ rfl
      (by decide) (List.Perm.refl catW6) (by decide)
      (by decide)).2.2.2.2.2.1⟩

/-- An in-range default read from a list is a member. -/
theorem getD_mem_of_lt {l : List Question} {n : Nat} {d : Question}
    (h : n < l.length) : l.getD n d ∈ l := by
  induction l generalizing n with
  | nil => cases h
  | cons a t ih =>
    cases n with
    | zero => exact List.mem_cons_self a t
    | succ m =>
      exact List.mem_cons_of_mem a (ih (Nat.lt_of_succ_lt_succ h))

/-- With an empty catalog the padding loop exits at once. -/
theorem padLoop_empty (choices : Nat → Nat) :
    ∀ (fuel k : Nat) (acc : List GameQ),
      padLoop [] choices fuel k acc = acc
  | 0, _, _ => rfl
  | fuel + 1, k, acc => by simp [padLoop]

/-- When every catalog id is already among the accumulated items, one
more iteration of the padding loop changes nothing — so no number of
iterations does. -/
theorem padLoop_stuck (catalog : List Question) (choices : Nat → Nat) :
    ∀ (fuel k : Nat) (acc : List GameQ),
      (∀ q ∈ catalog, q.id ∈ acc.map GameQ.id) →
      padLoop catalog choices fuel k acc = acc
  | 0, _, _, _ => rfl
  | fuel + 1, k, acc, hall => by
    by_cases hg : acc.length < 16 ∧ 0 < catalog.length
    · have hidx : choices k % catalog.length < catalog.length :=
        Nat.mod_lt _ hg.2
      have hmem : catalog.getD (choices k % catalog.length) defaultQ
          ∈ catalog := getD_mem_of_lt hidx
      have hdup : ((acc.map GameQ.id).contains
          (catalog.getD (choices k % catalog.length) defaultQ).id) = true := by
        simpa using hall _ hmem
      simp only [padLoop, if_pos hg, hdup, if_true]
      exact padLoop_stuck catalog choices fuel (k + 1) acc hall
    · simp [padLoop, hg]

/-- C7.  Two findings.  (1) With an empty catalog the handler does
return an empty question list and still reports success, as claimed.
(2) The graceful-degradation half of the claim fails: whenever every
catalog id is already among the built items — which is exactly the state
the initial selection produces for a catalog of 1 to 15 distinct
questions — the padding loop makes no progress at any iteration.  Its
guard (`fewer than 16 items ∧ catalog nonempty`) therefore holds forever
and the JavaScript `while` loop never terminates: the handler hangs
instead of returning fewer than 16 items.  The third conjunct
instantiates this on a one-question catalog. -/
theorem c7_empty_ok_but_small_catalog_loop_never_exits :
    (∀ (shuffled : List Question) (choices : Nat → Nat) (fuel : Nat),
      gameQuestionsHandler [] shuffled choices fuel =
        { questions := [], totalQuestions := 16, ok := true }) ∧
    (∀ (catalog : List Question) (choices : Nat → Nat) (fuel k : Nat)
        (acc : List GameQ),
      (∀ q ∈ catalog, q.id ∈ acc.map GameQ.id) →
      padLoop catalog choices fuel k acc = acc) ∧
    (∀ (choices : Nat → Nat) (fuel : Nat),
      padLoop [qA] choices fuel 0 (buildItems 0 [qA]) =
        buildItems 0 [qA] ∧
      (buildItems 0 [qA]).length < 16 ∧
      (0 : Nat) < ([qA] : List Question).length) := by
  refine ⟨?_, fun catalog choices fuel k acc h =>
    padLoop_stuck catalog choices fuel k acc h, ?_⟩
  · intro shuffled choices fuel
    simp [gameQuestionsHandler, getRandomQuestions, buildItems,
      padLoop_empty]
  · intro choices fuel
    exact ⟨padLoop_stuck [qA] choices fuel 0 _ (by decide), by decide,
      by decide⟩

/-- Witness for C7: five iterations of the padding loop on the
one-question catalog leave the single built item untouched. -/
theorem c7_empty_ok_but_small_catalog_loop_never_exits_witness :
    padLoop [qA] (fun _ => 0) 5 0 (buildItems 0 [qA]) =
      buildItems 0 [qA] :=
  c7_empty_ok_but_small_catalog_loop_never_exits.2.1 [qA] (fun _ => 0)
    5 0 (buildItems 0 [qA]) (by decide)

/-- One leaderboard write of `POST /api/complete-game` (src/index.js
lines 886-894; the prize branch of `POST /api/game/complete` performs
the identical push/sort/truncate on its entry): append the new entry,
sort descending by `prizeWon`, keep the top 100. -/
def completeGameStep (lb : List LBEntry) (e : LBEntry) : List LBEntry :=
  sortTrunc (lb ++ [e])

/-- Number of entries of `l` with a strictly greater prize than `e`:
the rank context that decides survival in a top-100 list. -/
def cntGT (l : List LBEntry) (e : LBEntry) : Nat :=
  l.countP (fun x => decide (e.prizeWon < x.prizeWon))

/-- The truncation step always takes the first 100 of the sorted list. -/
theorem sortTrunc_eq_take (l : List LBEntry) :
    sortTrunc l = (lbSort l).take 100 := by
  unfold sortTrunc
  by_cases h : 100 < (lbSort l).length
  · rw [if_pos h]
  · rw [if_neg h]
    exact (List.take_of_length_le (Nat.not_lt.mp h)).symm

/-- An entry strictly above another has strictly fewer entries above
it. -/
theorem cntGT_lt_of_mem_gt :
    ∀ (p : List LBEntry) (x f : LBEntry), x ∈ p →
      f.prizeWon < x.prizeWon → cntGT p x < cntGT p f
  | [], x, _, hx, _ => absurd hx (List.not_mem_nil x)
  | y :: t, x, f, hx, hgt => by
    rcases List.mem_cons.mp hx with rfl | hxt
    · have h1 : cntGT (x :: t) x = cntGT t x := by
        rw [cntGT, cntGT, List.countP_cons]
        simp
      have h2 : cntGT (x :: t) f = cntGT t f + 1 := by
        rw [cntGT, cntGT, List.countP_cons]
        simp [hgt]
      have h3 : cntGT t x ≤ cntGT t f := by
        apply List.countP_mono_left
        intro z hz hxz
        simp only [decide_eq_true_eq] at hxz ⊢
        exact lt_trans hgt hxz
      omega
    · have h3 : cntGT t x < cntGT t f := cntGT_lt_of_mem_gt t x f hxt hgt
      unfold cntGT at h3 ⊢
      rw [List.countP_cons, List.countP_cons]
      by_cases hxy : x.prizeWon < y.prizeWon
      · have hfy : f.prizeWon < y.prizeWon := lt_trans hgt hxy
        simp only [hxy, hfy, decide_eq_true_eq, if_pos trivial]
        simp
        omega
      · by_cases hfy : f.prizeWon < y.prizeWon
        · simp [hxy, hfy]
          omega
        · simp [hxy, hfy]
          omega

/-- In a descending, duplicate-free-prize list, membership in the first
`n` entries is exactly having fewer than `n` entries above. -/
theorem mem_take_iff_cntGT :
    ∀ (s : List LBEntry), List.Sorted lbGe s →
      (s.map LBEntry.prizeWon).Nodup → ∀ (e : LBEntry), e ∈ s →
      ∀ n : Nat, (e ∈ s.take n ↔ cntGT s e < n)
  | [], _, _, e, he, _ => absurd he (List.not_mem_nil e)
  | a :: t, hs, hnd, e, he, n => by
    have hs' := List.sorted_cons.mp hs
    have hnd' := List.nodup_cons.mp hnd
    rcases List.mem_cons.mp he with rfl | het
    · have hcnt : cntGT (e :: t) e = 0 := by
        rw [cntGT, List.countP_cons]
        have h1 : t.countP (fun x => decide (e.prizeWon < x.prizeWon))
            = 0 := by
          apply List.countP_eq_zero.mpr
          intro x hx
          simp only [decide_eq_true_eq]
          exact not_lt.mpr (hs'.1 x hx)
        simp [h1]
      cases n with
      | zero => simp [hcnt]
      | succ m => simp [hcnt, List.take_succ_cons]
    · have hep_mem : e.prizeWon ∈ t.map LBEntry.prizeWon :=
        List.mem_map_of_mem LBEntry.prizeWon het
      have hlt : e.prizeWon < a.prizeWon := by
        have hle : e.prizeWon ≤ a.prizeWon := hs'.1 e het
        have hne : e.prizeWon ≠ a.prizeWon := fun hEq =>
          hnd'.1 (hEq ▸ hep_mem)
        exact lt_of_le_of_ne hle hne
      have hne_ea : e ≠ a := fun hEq => absurd (hEq ▸ rfl) hlt.ne
      have hcnt : cntGT (a :: t) e = cntGT t e + 1 := by
        rw [cntGT, cntGT, List.countP_cons]
        simp [hlt]
      have hrec := mem_take_iff_cntGT t hs'.2 hnd'.2 e het
      cases n with
      | zero => simp [hcnt]
      | succ m =>
        rw [List.take_succ_cons, hcnt]
        constructor
        · intro h
          rcases List.mem_cons.mp h with h | h
          · exact absurd h hne_ea
          · have := (hrec m).mp h
            omega
        · intro h
          exact List.mem_cons_of_mem a ((hrec m).mpr (by omega))

/-- When a retained entry is in the kept list of a top-100 invariant
state, the kept list contains all entries above it, so its rank context
agrees with the full history's. -/
theorem cntGT_eq_of_mem_inv (p lb : List LBEntry) (f : LBEntry)
    (hsub : lb <+~ p)
    (hmem : ∀ x ∈ p, (x ∈ lb ↔ cntGT p x < 100))
    (hndp : (p.map LBEntry.prizeWon).Nodup)
    (hfl : f ∈ lb) : cntGT lb f = cntGT p f := by
  have hfp : f ∈ p := hsub.subset hfl
  have hflt : cntGT p f < 100 := (hmem f hfp).mp hfl
  have hall : ∀ x ∈ p, f.prizeWon < x.prizeWon → x ∈ lb := by
    intro x hx hgt
    exact (hmem x hx).mpr (lt_trans (cntGT_lt_of_mem_gt p x f hx hgt) hflt)
  apply le_antisymm
  · exact List.Subperm.countP_le _ hsub
  · rw [cntGT, cntGT, List.countP_eq_length_filter,
      List.countP_eq_length_filter]
    have hndpl : p.Nodup := List.Nodup.of_map LBEntry.prizeWon hndp
    have hndF : (p.filter
        (fun x => decide (f.prizeWon < x.prizeWon))).Nodup :=
      hndpl.filter _
    have hsubF : (p.filter (fun x => decide (f.prizeWon < x.prizeWon))) ⊆
        (lb.filter (fun x => decide (f.prizeWon < x.prizeWon))) := by
      intro z hz
      have hz' := List.mem_filter.mp hz
      exact List.mem_filter.mpr
        ⟨hall z hz'.1 (by simpa using hz'.2), hz'.2⟩
    exact (hndF.subperm hsubF).length_le

/-- Invariant relating a stored leaderboard `lb` to the history `p` of
all entries ever submitted: the stored list is drawn from the history,
is sorted descending, has `min |p| 100` entries, and keeps exactly the
entries with fewer than 100 strictly better submissions. -/
def LBInv (p lb : List LBEntry) : Prop :=
  lb <+~ p ∧ List.Sorted lbGe lb ∧ lb.length = min p.length 100 ∧
    ∀ x ∈ p, (x ∈ lb ↔ cntGT p x < 100)

/-- The empty leaderboard satisfies the invariant for an empty history. -/
theorem LBInv_nil : LBInv [] [] :=
  ⟨List.nil_subperm, List.sorted_nil, by simp, by simp⟩

/-- One push/sort/truncate step preserves the top-100 invariant, as long
as the new entry's prize is fresh (all submitted prizes distinct). -/
theorem LBInv_step (p lb : List LBEntry) (e : LBEntry) (h : LBInv p lb)
    (hnd : ((p ++ [e]).map LBEntry.prizeWon).Nodup) :
    LBInv (p ++ [e]) (completeGameStep lb e) := by
  obtain ⟨hsub, hsort, hlen, hmem⟩ := h
  rw [List.map_append] at hnd
  have hndp : (p.map LBEntry.prizeWon).Nodup := (List.nodup_append.mp hnd).1
  have hdisj := (List.nodup_append.mp hnd).2.2
  have hep : e.prizeWon ∉ p.map LBEntry.prizeWon := by
    intro hmem'
    exact hdisj hmem' (by simp)
  have hmem_lb_p : ∀ x ∈ lb, x ∈ p := fun x hx => hsub.subset hx
  have hnd_lb : (lb.map LBEntry.prizeWon).Nodup := by
    obtain ⟨w, hw1, hw2⟩ := hsub
    have h1 : (w.map LBEntry.prizeWon).Nodup :=
      hndp.sublist (hw2.map LBEntry.prizeWon)
    exact ((hw1.map LBEntry.prizeWon).nodup_iff).mp h1
  have hnd_lbe : ((lb ++ [e]).map LBEntry.prizeWon).Nodup := by
    rw [List.map_append]
    apply List.nodup_append.mpr
    refine ⟨hnd_lb, by simp, ?_⟩
    intro a ha hae
    have hae' : a = e.prizeWon := by simpa using hae
    subst hae'
    exact hep (List.map_subset LBEntry.prizeWon hmem_lb_p ha)
  have hperm_s : lbSort (lb ++ [e]) ~ lb ++ [e] :=
    List.perm_insertionSort lbGe (lb ++ [e])
  have hsorted_s : List.Sorted lbGe (lbSort (lb ++ [e])) :=
    List.sorted_insertionSort lbGe (lb ++ [e])
  have hnd_s : ((lbSort (lb ++ [e])).map LBEntry.prizeWon).Nodup :=
    ((hperm_s.map LBEntry.prizeWon).nodup_iff).mpr hnd_lbe
  have hstep : completeGameStep lb e = (lbSort (lb ++ [e])).take 100 := by
    rw [completeGameStep, sortTrunc_eq_take]
  have hslen : (lbSort (lb ++ [e])).length = lb.length + 1 := by
    rw [hperm_s.length_eq]
    simp
  refine ⟨?_, ?_, ?_, ?_⟩
  · rw [hstep]
    have h1 : (lbSort (lb ++ [e])).take 100 <+~ lb ++ [e] :=
      (List.take_sublist 100 _).subperm.trans hperm_s.subperm
    exact h1.trans ((List.subperm_append_right [e]).mpr hsub)
  · rw [hstep]
    exact hsorted_s.sublist (List.take_sublist 100 _)
  · rw [hstep, List.length_take, hslen, hlen]
    simp only [List.length_append, List.length_singleton]
    omega
  · intro f hf
    rw [hstep]
    rcases List.mem_append.mp hf with hfp | hfe
    · by_cases hfl : f ∈ lb
      · have hf_s : f ∈ lbSort (lb ++ [e]) :=
          hperm_s.mem_iff.mpr (List.mem_append_left _ hfl)
        have h1 := mem_take_iff_cntGT _ hsorted_s hnd_s f hf_s 100
        have h2 : cntGT (lbSort (lb ++ [e])) f = cntGT lb f + cntGT [e] f := by
          rw [cntGT, hperm_s.countP_eq, List.countP_append]
          rfl
        have h4 : cntGT lb f = cntGT p f :=
          cntGT_eq_of_mem_inv p lb f hsub hmem hndp hfl
        have h3 : cntGT (p ++ [e]) f = cntGT p f + cntGT [e] f := by
          rw [cntGT, List.countP_append]
          rfl
        rw [h1, h2, h3, h4]
      · have hge : 100 ≤ cntGT p f :=
          Nat.not_lt.mp (fun hc => hfl ((hmem f hfp).mpr hc))
        have hnotin : f ∉ (lbSort (lb ++ [e])).take 100 := by
          intro hin
          have hf_s : f ∈ lbSort (lb ++ [e]) := List.take_subset _ _ hin
          rcases List.mem_append.mp (hperm_s.mem_iff.mp hf_s) with h | h
          · exact hfl h
          · have hfe' : f = e := by simpa using h
            subst hfe'
            exact hep (List.mem_map_of_mem LBEntry.prizeWon hfp)
        have hge2 : 100 ≤ cntGT (p ++ [e]) f := by
          have hmono : cntGT p f ≤ cntGT (p ++ [e]) f := by
            rw [cntGT, cntGT, List.countP_append]
            omega
          omega
        constructor
        · intro hin
          exact absurd hin hnotin
        · intro hlt
          exact absurd hlt (Nat.not_lt.mpr hge2)
    · have hfe' : f = e := by simpa using hfe
      subst hfe'
      have he_s : f ∈ lbSort (lb ++ [f]) :=
        hperm_s.mem_iff.mpr (List.mem_append_right _ (by simp))
      have h1 := mem_take_iff_cntGT _ hsorted_s hnd_s f he_s 100
      have h2 : cntGT (lbSort (lb ++ [f])) f = cntGT lb f := by
        rw [cntGT, hperm_s.countP_eq, List.countP_append]
        simp [List.countP_cons, cntGT]
      have h3 : cntGT (p ++ [f]) f = cntGT p f := by
        rw [cntGT, List.countP_append]
        simp [List.countP_cons, cntGT]
      rw [h1, h2, h3]
      constructor
      · intro hlb_lt
        by_contra hge
        have hge' : 100 ≤ cntGT p f := Nat.not_lt.mp hge
        have hplen : 100 ≤ p.length :=
          le_trans hge' (List.countP_le_length _)
        have hlb100 : lb.length = 100 := by
          rw [hlen]
          omega
        have hall : ∀ x ∈ lb, f.prizeWon < x.prizeWon := by
          intro x hx
          by_contra hnot
          have hxle : x.prizeWon ≤ f.prizeWon := not_lt.mp hnot
          have hxp : x ∈ p := hmem_lb_p x hx
          have hxne : x.prizeWon ≠ f.prizeWon := fun hEq =>
            hep (hEq ▸ List.mem_map_of_mem LBEntry.prizeWon hxp)
          have hxlt : x.prizeWon < f.prizeWon := lt_of_le_of_ne hxle hxne
          have hcle : cntGT p f ≤ cntGT p x := by
            apply List.countP_mono_left
            intro z hz hfz
            simp only [decide_eq_true_eq] at hfz ⊢
            exact lt_trans hxlt hfz
          have hx100 : cntGT p x < 100 := (hmem x hxp).mp hx
          omega
        have hfull : cntGT lb f = lb.length := by
          rw [cntGT]
          apply List.countP_eq_length.mpr
          intro x hx
          simpa using hall x hx
        omega
      · intro hp_lt
        have hmono : cntGT lb f ≤ cntGT p f :=
          List.Subperm.countP_le _ hsub
        omega

/-- Folding the push/sort/truncate step over a history of submissions
with pairwise-distinct prizes maintains the top-100 invariant. -/
theorem LBInv_fold :
    ∀ (es p lb : List LBEntry), LBInv p lb →
      ((p ++ es).map LBEntry.prizeWon).Nodup →
      LBInv (p ++ es) (es.foldl completeGameStep lb)
  | [], p, lb, h, _ => by simpa using h
  | e :: es, p, lb, h, hnd => by
    have hsl : (p ++ [e]) <+ (p ++ e :: es) :=
      ((List.nil_sublist es).cons₂ e).append_left p
    have hnd1 : ((p ++ [e]).map LBEntry.prizeWon).Nodup :=
      hnd.sublist (hsl.map LBEntry.prizeWon)
    have hstep := LBInv_step p lb e h hnd1
    have hrec := LBInv_fold es (p ++ [e]) (completeGameStep lb e) hstep
      (by simpa using hnd)
    simpa using hrec

/-- C4.  First, after every push/sort/truncate write the stored list is
sorted descending by `prizeWon` and holds at most 100 entries —
regardless of the previous state, since the whole list is re-sorted and
re-truncated.  Second, folding 105 submissions with pairwise-distinct
prizes from the empty leaderboard leaves exactly 100 stored entries,
every submission with at least 100 strictly better submissions (i.e.
the 5 lowest prizes) being absent and every other submission present. -/
theorem c4_leaderboard_sorted_truncated_top100 :
    (∀ l : List LBEntry,
      List.Sorted lbGe (sortTrunc l) ∧ (sortTrunc l).length ≤ 100) ∧
    (∀ es : List LBEntry, (es.map LBEntry.prizeWon).Nodup →
      es.length = 105 →
      (es.foldl completeGameStep []).length = 100 ∧
      (∀ e ∈ es, 100 ≤ cntGT es e → e ∉ es.foldl completeGameStep []) ∧
      (∀ e ∈ es, cntGT es e < 100 → e ∈ es.foldl completeGameStep [])) := by
  constructor
  · intro l
    constructor
    · rw [sortTrunc_eq_take]
      exact (List.sorted_insertionSort lbGe l).sublist
        (List.take_sublist 100 _)
    · rw [sortTrunc_eq_take, List.length_take]
      exact Nat.min_le_left 100 _
  · intro es hnd h105
    have hinv := LBInv_fold es [] [] LBInv_nil (by simpa using hnd)
    rw [List.nil_append] at hinv
    obtain ⟨hsub, hsort, hlen, hmem⟩ := hinv
    refine ⟨?_, ?_, ?_⟩
    · rw [hlen, h105]
      decide
    · intro e he hge hin
      have := (hmem e he).mp hin
      omega
    · intro e he hlt
      exact (hmem e he).mpr hlt

/-- The `i`-th submission of the 105-entry scenario: prize `i + 1`. -/
def mkE105 (i : Nat) : LBEntry :=
  { id := i
    userId := "u"
    playerName := "p"
    prizeWon := (i : Int) + 1
    questionsAnswered := 10
    totalQuestions := 16
    completionDate := 0
    completionTime := "1:00" }

/-- 105 submissions with the pairwise-distinct prizes 1 to 105. -/
def es105 : List LBEntry := (List.range 105).map mkE105

set_option maxRecDepth 8000 in
/-- Witness for C4: the 105 distinct-prize submissions leave exactly 100
stored entries, and the lowest submission (prize 1) is absent. -/
theorem c4_leaderboard_sorted_truncated_top100_witness :
    (es105.foldl completeGameStep []).length = 100 ∧
    mkE105 0 ∉ es105.foldl completeGameStep [] :=
  ⟨(c4_leaderboard_sorted_truncated_top100.2 es105 (by decide)
      (by decide)).1,
    (c4_leaderboard_sorted_truncated_top100.2 es105 (by decide)
      (by decide)).2.1 (mkE105 0) (by decide) (by decide)⟩
